import Mathlib

/-!
Shallow embedding of `src/homekit_steam_user_switcher.py`.

The VDF configuration files (Steam's `registry.vdf` and `loginusers.vdf`)
are modelled as parsed trees (`VDF`): the spec treats the VDF
parser/serializer as a given library capability with
`parse : text -> tree` and `serialize : tree -> text`, so the ConfigStore
operations are modelled directly on trees.  Python `dict`s are modelled as
association lists whose update keeps the position of an existing key
(insertion-order semantics).  For the write-back atomicity question a
text-level model of `vdf.dump(..., pretty=True)` is also provided.
-/

namespace SteamSwitcher

/-- A parsed VDF tree: either a string leaf or a mapping (a Python dict). -/
inductive VDF where
  | str : String → VDF
  | obj : List (String × VDF) → VDF

/-- Python `d[k]` read on a parsed node: failure (`KeyError`) when the key is
missing, failure (`TypeError`-like) when the node is a string leaf. -/
def vdfGet : VDF → String → Option VDF
  | .str _, _ => none
  | .obj es, k => (es.find? (fun e => e.1 == k)).map (fun e => e.2)

/-- Python `d[k] = v` on an association list: replace the value of an
existing key in place (keeping its position), else append the key. -/
def setEntry : List (String × VDF) → String → VDF → List (String × VDF)
  | [], k, v => [(k, v)]
  | e :: rest, k, v => if e.1 == k then (k, v) :: rest else e :: setEntry rest k v

/-- Navigate a chain of indexings `t[k1][k2]...[kn]`. -/
def getPath : VDF → List String → Option VDF
  | t, [] => some t
  | t, k :: ks =>
    match vdfGet t k with
    | some u => getPath u ks
    | none => none

/-- Model of the Python statement `t[k1][k2]...[kn][leaf] = v`: every
indexing along `ks` must find an existing key on a dict node (else
`KeyError`/`TypeError` aborts the statement before anything is written),
and the final assignment creates or replaces the `leaf` key on a dict node,
keeping every other entry in place. -/
def assignPath : VDF → List String → String → VDF → Option VDF
  | .obj es, [], leaf, v => some (.obj (setEntry es leaf v))
  | .obj es, k :: ks, leaf, v =>
    match es.find? (fun e => e.1 == k) with
    | some e => (assignPath e.2 ks leaf v).map (fun u => VDF.obj (setEntry es k u))
    | none => none
  | .str _, _, _, _ => none

/-- The fixed nested path `registry['Registry']['HKCU']['Software']['Valve']['Steam']`. -/
def steamPath : List String := ["Registry", "HKCU", "Software", "Valve", "Steam"]

/-- Full path of the `AutoLoginUser` leaf inside `registry.vdf`. -/
def autoLoginPath : List String := steamPath ++ ["AutoLoginUser"]

/-- Embeds `get_account` (lines 132-135): parse `registry.vdf` and navigate
to the `AutoLoginUser` leaf; `none` models the raised exception when the
file's tree lacks the path. -/
def get_account (t : VDF) : Option VDF := getPath t autoLoginPath

/-- Embeds `set_account` (lines 138-143) at tree level: parse, overwrite the
`AutoLoginUser` leaf, and re-serialize the whole tree; `none` models the
`KeyError` raised while navigating before anything is written. -/
def set_account (account : String) (t : VDF) : Option VDF :=
  assignPath t steamPath "AutoLoginUser" (.str account)

/-- A settings registry tree is well formed when the fixed nested path leads
to a dict and its `AutoLoginUser` field, if present, is a string leaf. -/
def isWellFormed (t : VDF) : Bool :=
  match getPath t steamPath with
  | some (.obj es) =>
    match es.find? (fun e => e.1 == "AutoLoginUser") with
    | none => true
    | some e =>
      match e.2 with
      | .str _ => true
      | .obj _ => false
  | _ => false

/-- The string stored at path `p`, when `p` leads to a string leaf. -/
def strLeaf (t : VDF) (p : List String) : Option String :=
  match getPath t p with
  | some (.str s) => some s
  | _ => none

/-! Association-list lemmas about `setEntry`. -/

theorem find?_setEntry_self (es : List (String × VDF)) (k : String) (v : VDF) :
    (setEntry es k v).find? (fun e => e.1 == k) = some (k, v) := by
  induction es with
  | nil => simp [setEntry]
  | cons e rest ih =>
    by_cases h : e.1 = k
    · simp [setEntry, h]
    · simp only [setEntry, beq_iff_eq, h, if_false]
      rw [List.find?_cons_of_neg]
      · exact ih
      · simp [h]

theorem find?_setEntry_other (es : List (String × VDF)) (k k' : String) (v : VDF)
    (hk : k' ≠ k) :
    (setEntry es k v).find? (fun e => e.1 == k') = es.find? (fun e => e.1 == k') := by
  induction es with
  | nil =>
    simp [setEntry, Ne.symm hk]
  | cons e rest ih =>
    by_cases h : e.1 = k
    · subst h
      simp [setEntry, List.find?_cons_of_neg, hk, Ne.symm hk]
    · simp only [setEntry, beq_iff_eq, h, if_false]
      by_cases h' : e.1 = k'
      · simp [List.find?_cons_of_pos, h']
      · rw [List.find?_cons_of_neg, List.find?_cons_of_neg]
        · exact ih
        · simp [h']
        · simp [h']

theorem getPath_append (xs : List String) :
    ∀ (t : VDF) (ys : List String),
      getPath t (xs ++ ys) = (getPath t xs).bind (fun u => getPath u ys) := by
  induction xs with
  | nil => intro t ys; rfl
  | cons x xs ih =>
    intro t ys
    show (match vdfGet t x with
          | some u => getPath u (xs ++ ys)
          | none => none) = _
    rcases hu : vdfGet t x with _ | u
    · simp [getPath, hu]
    · simp only [getPath, hu]
      exact ih u ys

theorem getPath_congr_step (t t' : VDF) (k : String) (ps : List String)
    (h : vdfGet t' k = vdfGet t k) :
    getPath t' (k :: ps) = getPath t (k :: ps) := by
  show (match vdfGet t' k with
        | some u => getPath u ps
        | none => none) =
       (match vdfGet t k with
        | some u => getPath u ps
        | none => none)
  rw [h]

/-- Round trip along a navigable path: assigning the leaf and then reading
the full path back yields the assigned value. -/
theorem assignPath_get (ks : List String) :
    ∀ (t : VDF) (es : List (String × VDF)) (leaf : String) (v : VDF),
      getPath t ks = some (VDF.obj es) →
      (assignPath t ks leaf v).bind (fun u => getPath u (ks ++ [leaf])) = some v := by
  induction ks with
  | nil =>
    intro t es leaf v h
    have ht : t = VDF.obj es := Option.some.inj h
    subst ht
    simp [assignPath, getPath, vdfGet, find?_setEntry_self]
  | cons k ks ih =>
    intro t es leaf v h
    rcases t with s | es₀
    · simp [getPath, vdfGet] at h
    · have h' : (match vdfGet (VDF.obj es₀) k with
                 | some u => getPath u ks
                 | none => none) = some (VDF.obj es) := h
      rcases hu : vdfGet (VDF.obj es₀) k with _ | u
      · rw [hu] at h'; exact absurd h' (by simp)
      · rw [hu] at h'
        rcases hf : es₀.find? (fun e => e.1 == k) with _ | e
        · exact absurd hu (by simp [vdfGet, hf])
        · have heu : e.2 = u := by
            have : (es₀.find? (fun e => e.1 == k)).map (fun e => e.2) = some u := hu
            rw [hf] at this
            simpa using this
          have hsub : getPath e.2 ks = some (VDF.obj es) := by rw [heu]; exact h'
          have := ih e.2 es leaf v hsub
          rcases hA : assignPath e.2 ks leaf v with _ | u'
          · rw [hA] at this; exact absurd this (by simp)
          · rw [hA] at this
            have this' : getPath u' (ks ++ [leaf]) = some v := this
            have hassign : assignPath (VDF.obj es₀) (k :: ks) leaf v =
                (assignPath e.2 ks leaf v).map (fun u => VDF.obj (setEntry es₀ k u)) := by
              show (match es₀.find? (fun e => e.1 == k) with
                    | some e => (assignPath e.2 ks leaf v).map
                        (fun u => VDF.obj (setEntry es₀ k u))
                    | none => none) = _
              rw [hf]
            rw [hassign, hA]
            show (match vdfGet (VDF.obj (setEntry es₀ k u')) k with
                  | some w => getPath w (ks ++ [leaf])
                  | none => none) = some v
            rw [show vdfGet (VDF.obj (setEntry es₀ k u')) k = some u' by
              simp [vdfGet, find?_setEntry_self]]
            exact this'

/-- Embeds the claim `setSelectedAccount` followed by `getSelectedAccount`
returns the value just written: for every well-formed settings registry tree
and account string, `set_account` succeeds and `get_account` on the result
reads back exactly that account. -/
theorem set_get_roundtrip (t : VDF) (a : String) (hwf : isWellFormed t = true) :
    (set_account a t).bind get_account = some (VDF.str a) := by
  unfold isWellFormed at hwf
  rcases hg : getPath t steamPath with _ | u
  · rw [hg] at hwf; exact absurd hwf (by simp)
  · rcases u with s | es
    · rw [hg] at hwf; exact absurd hwf (by simp)
    · exact assignPath_get steamPath t es "AutoLoginUser" (VDF.str a) hg

/-- A small concrete well-formed `registry.vdf` tree with unrelated siblings. -/
def wfReg : VDF :=
  VDF.obj
    [("Registry",
      VDF.obj
        [("HKCU",
          VDF.obj
            [("Software",
              VDF.obj
                [("Valve",
                  VDF.obj
                    [("Steam",
                      VDF.obj
                        [("AutoLoginUser", VDF.str "bob99"),
                         ("RunningAppID", VDF.str "0")])]),
                 ("Other", VDF.str "keep")])]),
         ("HKLM", VDF.str "keep2")]),
     ("Unrelated", VDF.str "keep3")]

theorem set_get_roundtrip_witness :
    isWellFormed wfReg = true ∧
    (set_account "alice" wfReg).bind get_account = some (VDF.str "alice") :=
  ⟨rfl, set_get_roundtrip wfReg "alice" rfl⟩

/-! Frame property of `set_account`: only the `AutoLoginUser` leaf changes. -/

theorem getPath_cons_some (t u : VDF) (k : String) (ps : List String)
    (h : vdfGet t k = some u) : getPath t (k :: ps) = getPath u ps := by
  show (match vdfGet t k with
        | some w => getPath w ps
        | none => none) = getPath u ps
  rw [h]

theorem getPath_cons_none (t : VDF) (k : String) (ps : List String)
    (h : vdfGet t k = none) : getPath t (k :: ps) = none := by
  show (match vdfGet t k with
        | some w => getPath w ps
        | none => none) = none
  rw [h]

theorem getPath_single (t : VDF) (k : String) : getPath t [k] = vdfGet t k := by
  rcases h : vdfGet t k with _ | u
  · exact getPath_cons_none t k [] h
  · rw [getPath_cons_some t u k [] h]; rfl

theorem strLeaf_congr_step (t t' : VDF) (k : String) (ps : List String)
    (h : vdfGet t' k = vdfGet t k) :
    strLeaf t' (k :: ps) = strLeaf t (k :: ps) := by
  unfold strLeaf
  rw [getPath_congr_step t t' k ps h]

/-- The current value at the assignment target is not a dict (it is absent
or a string leaf), so nothing readable lives strictly below it. -/
def okTarget (t : VDF) (ks : List String) (leaf : String) : Bool :=
  match getPath t (ks ++ [leaf]) with
  | some (.obj _) => false
  | _ => true

theorem assignPath_strLeaf (ks : List String) :
    ∀ (t t' : VDF) (leaf a : String) (p : List String),
      assignPath t ks leaf (VDF.str a) = some t' →
      okTarget t ks leaf = true →
      p ≠ ks ++ [leaf] →
      strLeaf t' p = strLeaf t p := by
  induction ks with
  | nil =>
    intro t t' leaf a p hset hok hp
    rcases t with s | es
    · exact absurd hset (by simp [assignPath])
    · have ht' : t' = VDF.obj (setEntry es leaf (VDF.str a)) :=
        (Option.some.inj hset).symm
      subst ht'
      rcases p with _ | ⟨k', ps⟩
      · rfl
      · by_cases hk : k' = leaf
        · subst hk
          rcases ps with _ | ⟨q, qs⟩
          · exact absurd rfl hp
          · have hL : strLeaf (VDF.obj (setEntry es k' (VDF.str a))) (k' :: q :: qs) =
                none := by
              unfold strLeaf
              rw [getPath_cons_some _ (VDF.str a) k' (q :: qs)
                (by simp [vdfGet, find?_setEntry_self])]
              rfl
            rw [hL]
            unfold okTarget at hok
            rw [List.nil_append, getPath_single] at hok
            rcases hfind : es.find? (fun e => e.1 == k') with _ | e
            · unfold strLeaf
              rw [getPath_cons_none _ k' (q :: qs) (by simp [vdfGet, hfind])]
            · have hv : vdfGet (VDF.obj es) k' = some e.2 := by simp [vdfGet, hfind]
              rw [hv] at hok
              rcases he : e.2 with s | es2
              · unfold strLeaf
                rw [getPath_cons_some _ e.2 k' (q :: qs) hv, he]
                rfl
              · rw [he] at hok
                exact absurd hok (by simp)
        · exact strLeaf_congr_step _ _ k' ps
            (by simp [vdfGet, find?_setEntry_other _ _ _ _ hk])
  | cons k ks ih =>
    intro t t' leaf a p hset hok hp
    rcases t with s | es₀
    · exact absurd hset (by simp [assignPath])
    · rcases hf : es₀.find? (fun e => e.1 == k) with _ | e
      · exact absurd hset (by simp [assignPath, hf])
      · have hassign : assignPath (VDF.obj es₀) (k :: ks) leaf (VDF.str a) =
            (assignPath e.2 ks leaf (VDF.str a)).map
              (fun u => VDF.obj (setEntry es₀ k u)) := by
          show (match es₀.find? (fun e => e.1 == k) with
                | some e => (assignPath e.2 ks leaf (VDF.str a)).map
                    (fun u => VDF.obj (setEntry es₀ k u))
                | none => none) = _
          rw [hf]
        rw [hassign] at hset
        rcases hA : assignPath e.2 ks leaf (VDF.str a) with _ | u'
        · rw [hA] at hset; exact absurd hset (by simp)
        · rw [hA] at hset
          have ht' : t' = VDF.obj (setEntry es₀ k u') := by
            have : some (VDF.obj (setEntry es₀ k u')) = some t' := hset
            exact (Option.some.inj this).symm
          subst ht'
          have hvold : vdfGet (VDF.obj es₀) k = some e.2 := by simp [vdfGet, hf]
          have hvnew : vdfGet (VDF.obj (setEntry es₀ k u')) k = some u' := by
            simp [vdfGet, find?_setEntry_self]
          rcases p with _ | ⟨k', ps⟩
          · rfl
          · by_cases hkk : k' = k
            · subst hkk
              have hL : strLeaf (VDF.obj (setEntry es₀ k' u')) (k' :: ps) =
                  strLeaf u' ps := by
                unfold strLeaf
                rw [getPath_cons_some _ u' k' ps hvnew]
              have hR : strLeaf (VDF.obj es₀) (k' :: ps) = strLeaf e.2 ps := by
                unfold strLeaf
                rw [getPath_cons_some _ e.2 k' ps hvold]
              rw [hL, hR]
              apply ih e.2 u' leaf a ps hA
              · unfold okTarget at hok ⊢
                rw [show (k' :: ks) ++ [leaf] = k' :: (ks ++ [leaf]) from rfl,
                  getPath_cons_some _ e.2 k' (ks ++ [leaf]) hvold] at hok
                exact hok
              · intro hcontra
                exact hp (by rw [hcontra]; rfl)
            · exact strLeaf_congr_step _ _ k' ps
                (by simp [vdfGet, find?_setEntry_other _ _ _ _ hkk])

theorem isWellFormed_okTarget (t : VDF) (hwf : isWellFormed t = true) :
    okTarget t steamPath "AutoLoginUser" = true := by
  unfold isWellFormed at hwf
  unfold okTarget
  rw [getPath_append]
  rcases hg : getPath t steamPath with _ | u
  · rw [hg] at hwf; exact absurd hwf (by simp)
  · rcases u with s | es
    · rw [hg] at hwf; exact absurd hwf (by simp)
    · rw [hg] at hwf
      have hwf' : (match es.find? (fun e => e.1 == "AutoLoginUser") with
                   | none => true
                   | some e =>
                     match e.2 with
                     | VDF.str _ => true
                     | VDF.obj _ => false) = true := hwf
      show (match getPath (VDF.obj es) ["AutoLoginUser"] with
            | some (VDF.obj _) => false
            | _ => true) = true
      rw [getPath_single]
      rcases hfind : es.find? (fun e => e.1 == "AutoLoginUser") with _ | e
      · simp [vdfGet, hfind]
      · rw [hfind] at hwf'
        have hwf'' : (match e.2 with
                      | VDF.str _ => true
                      | VDF.obj _ => false) = true := hwf'
        have hv : vdfGet (VDF.obj es) "AutoLoginUser" = some e.2 := by
          simp [vdfGet, hfind]
        rw [hv]
        rcases he : e.2 with s | es2
        · rfl
        · rw [he] at hwf''
          exact absurd hwf'' (by simp)

/-- Embeds the claim that `setSelectedAccount` changes only the
selected-account leaf: for every well-formed settings registry tree, after a
successful `set_account` every string-valued leaf at any path other than
`Registry/HKCU/Software/Valve/Steam/AutoLoginUser` reads back unchanged. -/
theorem set_account_frame (t t' : VDF) (a : String) (p : List String)
    (hwf : isWellFormed t = true)
    (hset : set_account a t = some t')
    (hp : p ≠ autoLoginPath) :
    strLeaf t' p = strLeaf t p :=
  assignPath_strLeaf steamPath t t' "AutoLoginUser" a p hset
    (isWellFormed_okTarget t hwf) hp

/-- The tree `wfReg` after `set_account "alice"`. -/
def wfRegSet : VDF :=
  VDF.obj
    [("Registry",
      VDF.obj
        [("HKCU",
          VDF.obj
            [("Software",
              VDF.obj
                [("Valve",
                  VDF.obj
                    [("Steam",
                      VDF.obj
                        [("AutoLoginUser", VDF.str "alice"),
                         ("RunningAppID", VDF.str "0")])]),
                 ("Other", VDF.str "keep")])]),
         ("HKLM", VDF.str "keep2")]),
     ("Unrelated", VDF.str "keep3")]

theorem set_account_frame_witness :
    isWellFormed wfReg = true ∧
    set_account "alice" wfReg = some wfRegSet ∧
    strLeaf wfRegSet ["Registry", "HKCU", "Software", "Other"] =
      strLeaf wfReg ["Registry", "HKCU", "Software", "Other"] :=
  ⟨rfl, rfl,
    set_account_frame wfReg wfRegSet "alice"
      ["Registry", "HKCU", "Software", "Other"] rfl rfl (by decide)⟩

/-! Text-level model of the write-back in `set_account` (lines 138-143):
`open(REGISTRY, 'w')` truncates the file in place, then `vdf.dump(registry,
f, pretty=True)` streams the serialized tree into it.  An I/O fault during
the dump therefore leaves a prefix of the new serialization on disk. -/

/-- A run of tab characters, for the pretty indentation. -/
def tabs : Nat → String
  | 0 => ""
  | n + 1 => "\t" ++ tabs n

/-- Serializer mirroring `vdf.dump(..., pretty=True)`, producing the file's
character stream: quoted keys, string values on one tab-separated line,
dict values in a braced, indented block.  The first argument is recursion
fuel, decremented once per emitted entry; `dumpTop` supplies far more fuel
than any real registry file needs, so the bound is never hit there. -/
def dumpPairs : Nat → List (String × VDF) → Nat → List Char
  | 0, _, _ => []
  | _ + 1, [], _ => []
  | fuel + 1, (k, VDF.str v) :: rest, ind =>
      (tabs ind ++ "\"" ++ k ++ "\"" ++ "\t\t" ++ "\"" ++ v ++ "\"" ++ "\n").data ++
        dumpPairs fuel rest ind
  | fuel + 1, (k, VDF.obj es) :: rest, ind =>
      (tabs ind ++ "\"" ++ k ++ "\"" ++ "\n" ++ tabs ind ++ "\x7b\n").data ++
        dumpPairs fuel es (ind + 1) ++ (tabs ind ++ "\x7d\n").data ++
        dumpPairs fuel rest ind

/-- Serialize a whole parsed file to its character stream. -/
def dumpTop : VDF → List Char
  | .obj es => dumpPairs 1000000 es 0
  | .str s => ("\"" ++ s ++ "\"").data

/-- File-level model of `set_account`.  `tree` is the parse of the current
on-disk `text` (as a character stream).  `failAfter = some n` injects an I/O
fault after `n` characters of the dump have been written.  Returns the
resulting on-disk content and whether an exception was raised.  A `KeyError`
during the read-modify phase happens before the file is reopened for
writing, so the old text survives; a fault during the dump leaves a prefix
of the new serialization, because `open(REGISTRY, 'w')` already truncated
the file in place. -/
def set_account_io (account : String) (tree : VDF) (text : List Char)
    (failAfter : Option Nat) : List Char × Bool :=
  match set_account account tree with
  | none => (text, true)
  | some tree' =>
    let out := dumpTop tree'
    match failAfter with
    | none => (out, false)
    | some n => (out.take n, true)

/-- On-disk text matching the parse `wfReg`. -/
def wfRegText : List Char := dumpTop wfReg

/-- Embeds the failing input for the all-or-nothing claim: on a well-formed
registry file, a write-back that fails right after the truncating reopen
raises (second component `true`) but leaves the file empty — the previous
contents, which were non-empty, are gone, so the write is not all-or-nothing. -/
theorem set_account_io_truncates :
    (set_account_io "alice" wfReg wfRegText (some 0)).2 = true ∧
    (set_account_io "alice" wfReg wfRegText (some 0)).1 = [] ∧
    wfRegText ≠ [] := by
  refine ⟨rfl, rfl, by decide⟩

/-! Catalog building from Steam accounts (`__main__`, lines 374-400). -/

/-- One record of `loginusers.vdf`'s `users` mapping: `account.get(...)`
returns `none` when the field is missing. -/
structure Account where
  accountName : Option String
  personaName : Option String
deriving DecidableEq, Repr

/-- Embeds the body of the build loop (lines 378-386).  `idx` is the
`enumerate(..., start=1)` counter: it advances on every record, including
records skipped for a missing (or empty, hence falsy) `AccountName`.  The
label is `persona or acc_name` — the account name whenever the persona is
falsy — and the slug is the `AccountName` verbatim. -/
def buildLoop : Nat → List Account → List (Nat × String × String)
  | _, [] => []
  | idx, a :: rest =>
    match a.accountName with
    | none => buildLoop (idx + 1) rest
    | some n =>
      if n = "" then buildLoop (idx + 1) rest
      else
        (idx,
         (match a.personaName with
          | some p => if p = "" then n else p
          | none => n),
         n) :: buildLoop (idx + 1) rest

/-- The inputs built from the Steam accounts, in file order. -/
def buildInputs (accounts : List Account) : List (Nat × String × String) :=
  buildLoop 1 accounts

/-- Whether an account record survives the build loop: `AccountName` is
present and non-empty (Python `if not acc_name: continue` skips both a
missing and an empty name). -/
def keptAccount (a : Account) : Bool :=
  match a.accountName with
  | some n => ! (n == "")
  | none => false

theorem buildLoop_ids (l : List Account) :
    ∀ k, (∀ x ∈ buildLoop k l, k ≤ x.1) ∧
      ((buildLoop k l).map (fun x => x.1)).Pairwise (· < ·) := by
  induction l with
  | nil =>
    intro k
    exact ⟨fun x hx => absurd hx (by simp [buildLoop]), by simp [buildLoop]⟩
  | cons a rest ih =>
    intro k
    rcases han : a.accountName with _ | n
    · have hb : buildLoop k (a :: rest) = buildLoop (k + 1) rest := by
        simp [buildLoop, han]
      rw [hb]
      exact ⟨fun x hx => Nat.le_of_succ_le ((ih (k + 1)).1 x hx), (ih (k + 1)).2⟩
    · by_cases hne : n = ""
      · have hb : buildLoop k (a :: rest) = buildLoop (k + 1) rest := by
          simp [buildLoop, han, hne]
        rw [hb]
        exact ⟨fun x hx => Nat.le_of_succ_le ((ih (k + 1)).1 x hx), (ih (k + 1)).2⟩
      · have hb : buildLoop k (a :: rest) =
            (k,
             (match a.personaName with
              | some p => if p = "" then n else p
              | none => n),
             n) :: buildLoop (k + 1) rest := by
          simp [buildLoop, han, hne]
        rw [hb]
        refine ⟨?_, ?_⟩
        · intro x hx
          rcases List.mem_cons.mp hx with h | h
          · rw [h]
          · exact Nat.le_of_succ_le ((ih (k + 1)).1 x h)
        · rw [List.map_cons]
          refine List.Pairwise.cons ?_ (ih (k + 1)).2
          intro b hb'
          rcases List.mem_map.mp hb' with ⟨x, hx, hxb⟩
          have := (ih (k + 1)).1 x hx
          omega

theorem buildLoop_all_kept (l : List Account) :
    ∀ k, (∀ a ∈ l, keptAccount a = true) →
      (buildLoop k l).map (fun x => x.1) = List.range' k l.length := by
  induction l with
  | nil => intro k _; rfl
  | cons a rest ih =>
    intro k h
    have ha := h a (List.mem_cons_self a rest)
    rcases han : a.accountName with _ | n
    · rw [keptAccount, han] at ha; exact absurd ha (by simp)
    · have hne : ¬ n = "" := by
        rw [keptAccount, han] at ha
        simpa using ha
      have hb : buildLoop k (a :: rest) =
          (k,
           (match a.personaName with
            | some p => if p = "" then n else p
            | none => n),
           n) :: buildLoop (k + 1) rest := by
        simp [buildLoop, han, hne]
      rw [hb, List.map_cons, List.length_cons, List.range'_succ]
      rw [ih (k + 1) (fun b hb' => h b (List.mem_cons_of_mem a hb'))]

/-- Two records, the first lacking `AccountName`, the second valid. -/
def gapAccounts : List Account :=
  [{ accountName := none, personaName := none },
   { accountName := some "bob", personaName := none }]

/-- Counterexample to the claim as stated: with a skipped record ahead of a
kept one, the single built input carries identifier 2, so the identifiers
are not `1..N` — `enumerate(..., start=1)` advances the counter on skipped
records too. -/
theorem buildInputs_gap :
    gapAccounts ≠ [] ∧
    (buildInputs gapAccounts).map (fun x => x.1) ≠
      List.range' 1 (buildInputs gapAccounts).length := by
  exact ⟨by decide, by decide⟩

/-- Embeds the amended claim: for every non-empty account list, the built
identifiers are strictly increasing (hence free of repeats), each being the
1-based position of its source record; when every record carries a
non-empty identity field they are exactly `1..N` with no gaps. -/
theorem buildInputs_identifiers (accounts : List Account)
    (_hne : accounts ≠ []) :
    ((buildInputs accounts).map (fun x => x.1)).Pairwise (· < ·) ∧
    ((∀ a ∈ accounts, keptAccount a = true) →
      (buildInputs accounts).map (fun x => x.1) =
        List.range' 1 (buildInputs accounts).length) := by
  refine ⟨(buildLoop_ids accounts 1).2, ?_⟩
  intro hkept
  have h1 := buildLoop_all_kept accounts 1 hkept
  have hlen : (buildInputs accounts).length = accounts.length := by
    have := congrArg List.length h1
    simpa [buildInputs] using this
  rw [hlen]
  exact h1

/-- The two accounts of the spec's end-to-end example. -/
def specAccounts : List Account :=
  [{ accountName := some "bob99", personaName := some "Bob" },
   { accountName := some "carol_w", personaName := none }]

theorem buildInputs_identifiers_witness :
    ((buildInputs specAccounts).map (fun x => x.1)).Pairwise (· < ·) ∧
    (buildInputs specAccounts).map (fun x => x.1) =
      List.range' 1 (buildInputs specAccounts).length := by
  have h := buildInputs_identifiers specAccounts (by decide)
  exact ⟨h.1, h.2 (by decide)⟩

/-- Embeds the implicit claim about falsy display names: a record whose
`PersonaName` is present but empty (and whose `AccountName` is non-empty)
is labelled with the `AccountName`, because Python `persona or acc_name`
takes the right operand on any falsy left operand. -/
theorem empty_persona_label (n : String) (rest : List Account) (hn : n ≠ "") :
    (buildInputs
        ({ accountName := some n, personaName := some "" } :: rest)).head? =
      some (1, n, n) := by
  simp [buildInputs, buildLoop, hn]

theorem empty_persona_label_witness :
    ("bob" ≠ "") ∧
    (buildInputs [{ accountName := some "bob", personaName := some "" }]).head? =
      some (1, "bob", "bob") :=
  ⟨by decide, empty_persona_label "bob" [] (by decide)⟩

/-! The accessory state machine (`TelevisionAccessory`, lines 147-292).
Side-effect callbacks (`on_power_changed`, `on_input_changed`) are recorded
in an event log; the asyncio loop's outstanding `call_later` timers are a
list of (timer id, remaining delay) pairs and `_power_restore_handle` is an
optional timer id, so that "at most one restore timer outstanding" is a
property to prove, not one baked into the types.  One `tick` is one time
unit; the 2.0 second restore delay is 2 units. -/

/-- A recorded side-effect callback invocation. -/
inductive Ev where
  | power : Bool → Ev
  | input : Nat → String → String → Ev
deriving DecidableEq, Repr

/-- State of `TelevisionAccessory` plus the loop's pending restore timers
and the log of emitted callbacks. -/
structure TVState where
  inputs : List (Nat × String × String)
  is_active : Nat
  active_identifier : Nat
  pending : List (Nat × Nat)
  handle : Option Nat
  nextId : Nat
  events : List Ev
deriving DecidableEq, Repr

/-- Embeds `TelevisionAccessory.__init__` (lines 151-158): selection starts
at the resolved initial identifier, else the first input's identifier, else
0; power starts Off; no restore timer outstanding. -/
def initTV (input_items : List (Nat × String × String))
    (initial_identifier : Option Nat) : TVState :=
  { inputs := input_items
    is_active := 0
    active_identifier :=
      match initial_identifier with
      | some i => i
      | none =>
        match input_items with
        | [] => 0
        | x :: _ => x.1
    pending := []
    handle := none
    nextId := 0
    events := [] }

/-- Embeds `_restore_power` (lines 252-262): clear the handle, flip power
On, emit the power-changed callback with On. -/
def restore_power (s : TVState) : TVState :=
  { s with handle := none, is_active := 1, events := s.events ++ [Ev.power true] }

/-- Embeds `set_active` (lines 265-284): cancel a pending restore when
turning On; set power; emit power-changed; when turning Off, cancel any
pending restore and schedule a fresh one two units out. -/
def set_active (value : Nat) (s : TVState) : TVState :=
  let s1 :=
    if value = 1 then
      match s.handle with
      | some h =>
        { s with pending := s.pending.filter (fun t => ! (t.1 == h)), handle := none }
      | none => s
    else s
  let s2 := { s1 with is_active := value, events := s1.events ++ [Ev.power (value == 1)] }
  if value = 0 then
    let s3 :=
      match s2.handle with
      | some h => { s2 with pending := s2.pending.filter (fun t => ! (t.1 == h)) }
      | none => s2
    { s3 with
      pending := s3.pending ++ [(s3.nextId, 2)]
      handle := some s3.nextId
      nextId := s3.nextId + 1 }
  else s2

/-- One unit of loop time: timers whose remaining delay is at most one fire
(running `restore_power`), the others count down. -/
def tick (s : TVState) : TVState :=
  let fired := s.pending.filter (fun t => decide (t.2 ≤ 1))
  let rest := (s.pending.filter (fun t => ! decide (t.2 ≤ 1))).map
    (fun t => (t.1, t.2 - 1))
  fired.foldl (fun acc _ => restore_power acc) { s with pending := rest }

/-- Let `n` units of loop time elapse. -/
def advance : Nat → TVState → TVState
  | 0, s => s
  | n + 1, s => advance n (tick s)

/-- Python dict lookup with default over the pairs a dict comprehension was
built from: the last binding of a key wins, a missing key gives the default. -/
def dictGet (pairs : List (Nat × String)) (k : Nat) (dflt : String) : String :=
  match pairs.reverse.find? (fun e => e.1 == k) with
  | some e => e.2
  | none => dflt

/-- Embeds the handler `on_input_changed` (lines 56-68) as it acts on the
settings registry tree: `set_account(slug)`; any failure is caught, logged
and swallowed, leaving the registry as it was.  The function is total: no
failure propagates to the caller. -/
def on_input_changed (slug : String) (reg : VDF) : VDF :=
  match set_account slug reg with
  | some reg' => reg'
  | none => reg

/-- Embeds `set_active_identifier` (lines 286-292): accept the value
unconditionally, look up label and slug with defensive defaults "Unknown"
and "-", emit the input-changed callback, and run the integration handler
against the settings registry. -/
def set_active_identifier (value : Nat) (s : TVState) (reg : VDF) :
    TVState × VDF :=
  let s1 := { s with active_identifier := value }
  let label := dictGet (s1.inputs.map (fun t => (t.1, t.2.1))) value "Unknown"
  let slug := dictGet (s1.inputs.map (fun t => (t.1, t.2.2))) value "-"
  let s2 := { s1 with events := s1.events ++ [Ev.input value label slug] }
  (s2, on_input_changed slug reg)

/-- Embeds the `__main__` initial-identifier resolution (lines 390-398):
read the current `AutoLoginUser`; on success take the first input whose
slug equals it; on a read failure or no match leave it unset. -/
def initial_identifier_of (items : List (Nat × String × String)) (reg : VDF) :
    Option Nat :=
  match get_account reg with
  | some (VDF.str current) =>
    match items.find? (fun t => t.2.2 == current) with
    | some t => some t.1
    | none => none
  | _ => none

/-- The timer bookkeeping invariant: the outstanding loop timers are exactly
the one referenced by `_power_restore_handle` (none otherwise), and timer
ids never collide with the fresh-id counter. -/
def invariant (s : TVState) : Bool :=
  match s.handle, s.pending with
  | none, [] => true
  | some h, [(h', _)] => h' == h && decide (h < s.nextId)
  | _, _ => false

/-- States reachable from construction through the driver-facing setters
and the passage of loop time. -/
inductive Reachable : TVState → Prop where
  | init : ∀ items ini, Reachable (initTV items ini)
  | power : ∀ s v, Reachable s → Reachable (set_active v s)
  | input : ∀ s reg v, Reachable s → Reachable (set_active_identifier v s reg).1
  | time : ∀ s, Reachable s → Reachable (tick s)

theorem tick_pending_nil (s : TVState) (h : s.pending = []) : tick s = s := by
  obtain ⟨inp, act, aid, pend, hd, nid, ev⟩ := s
  have h' : pend = [] := h
  subst h'
  rfl

theorem advance_pending_nil (n : Nat) :
    ∀ (s : TVState), s.pending = [] → advance n s = s := by
  induction n with
  | zero => intro s _; rfl
  | succ n ih =>
    intro s h
    show advance n (tick s) = s
    rw [tick_pending_nil s h]
    exact ih s h

theorem advance_two_restores (inp : List (Nat × String × String))
    (aid nid : Nat) (ev : List Ev) :
    ∀ n, 2 ≤ n →
      (advance n ⟨inp, 0, aid, [(nid, 2)], some nid, nid + 1, ev⟩).is_active = 1 ∧
      (advance n ⟨inp, 0, aid, [(nid, 2)], some nid, nid + 1, ev⟩).events =
        ev ++ [Ev.power true] := by
  intro n hn
  obtain ⟨m, rfl⟩ : ∃ m, n = m + 2 := ⟨n - 2, by omega⟩
  have e1 : tick (⟨inp, 0, aid, [(nid, 2)], some nid, nid + 1, ev⟩ : TVState) =
      ⟨inp, 0, aid, [(nid, 1)], some nid, nid + 1, ev⟩ := by
    simp [tick]
  have e2 : tick (⟨inp, 0, aid, [(nid, 1)], some nid, nid + 1, ev⟩ : TVState) =
      ⟨inp, 1, aid, [], none, nid + 1, ev ++ [Ev.power true]⟩ := by
    simp [tick, restore_power]
  have estep :
      advance (m + 2) (⟨inp, 0, aid, [(nid, 2)], some nid, nid + 1, ev⟩ : TVState) =
        ⟨inp, 1, aid, [], none, nid + 1, ev ++ [Ev.power true]⟩ := by
    show advance m
        (tick (tick (⟨inp, 0, aid, [(nid, 2)], some nid, nid + 1, ev⟩ : TVState))) = _
    rw [e1, e2, advance_pending_nil m _ rfl]
  rw [estep]
  exact ⟨rfl, rfl⟩

/-- Embeds the power-off blip claim: from any state satisfying the timer
invariant, `set_active 0` reads back power Off, emits exactly one
power-changed(Off) callback, and leaves a restore timer scheduled; once two
or more time units elapse the state reads back power On and the log shows
exactly two power-changed callbacks for this call, Off then On.  The timer
fires autonomously — no further setter call is involved. -/
theorem set_active_off_restores (s : TVState)
    (hpow : s.is_active = 0 ∨ s.is_active = 1)
    (hinv : invariant s = true) :
    (set_active 0 s).is_active = 0 ∧
    (set_active 0 s).events = s.events ++ [Ev.power false] ∧
    (set_active 0 s).handle.isSome = true ∧
    ∀ n, 2 ≤ n →
      (advance n (set_active 0 s)).is_active = 1 ∧
      (advance n (set_active 0 s)).events =
        s.events ++ [Ev.power false, Ev.power true] := by
  obtain ⟨inp, act, aid, pend, hd, nid, ev⟩ := s
  rcases hd with _ | h
  · rcases pend with _ | ⟨p, ps⟩
    · have e : set_active 0 ⟨inp, act, aid, [], none, nid, ev⟩ =
          ⟨inp, 0, aid, [(nid, 2)], some nid, nid + 1, ev ++ [Ev.power false]⟩ := by
        simp [set_active]
      rw [e]
      refine ⟨rfl, rfl, rfl, ?_⟩
      intro n hn
      have h2 := advance_two_restores inp aid nid (ev ++ [Ev.power false]) n hn
      exact ⟨h2.1, by rw [h2.2]; simp⟩
    · simp [invariant] at hinv
  · rcases pend with _ | ⟨⟨h', r⟩, ps⟩
    · simp [invariant] at hinv
    · rcases ps with _ | ⟨q, qs⟩
      · have hh : h' = h ∧ h < nid := by simpa [invariant] using hinv
        obtain ⟨hh1, _⟩ := hh
        subst hh1
        have e : set_active 0 ⟨inp, act, aid, [(h', r)], some h', nid, ev⟩ =
            ⟨inp, 0, aid, [(nid, 2)], some nid, nid + 1, ev ++ [Ev.power false]⟩ := by
          simp [set_active]
        rw [e]
        refine ⟨rfl, rfl, rfl, ?_⟩
        intro n hn
        have h2 := advance_two_restores inp aid nid (ev ++ [Ev.power false]) n hn
        exact ⟨h2.1, by rw [h2.2]; simp⟩
      · simp [invariant] at hinv

/-- An idle constructed-like state used as a concrete witness input. -/
def tvIdle : TVState :=
  { inputs := []
    is_active := 1
    active_identifier := 0
    pending := []
    handle := none
    nextId := 0
    events := [] }

theorem set_active_off_restores_witness :
    (tvIdle.is_active = 0 ∨ tvIdle.is_active = 1) ∧
    invariant tvIdle = true ∧
    (advance 2 (set_active 0 tvIdle)).is_active = 1 ∧
    (advance 2 (set_active 0 tvIdle)).events = [Ev.power false, Ev.power true] := by
  have h := set_active_off_restores tvIdle (Or.inr rfl) rfl
  have h2 := h.2.2.2 2 (by decide)
  exact ⟨Or.inr rfl, rfl, h2.1, by simpa using h2.2⟩

theorem invariant_initTV (items : List (Nat × String × String))
    (ini : Option Nat) : invariant (initTV items ini) = true := rfl

theorem invariant_set_active (s : TVState) (v : Nat)
    (hinv : invariant s = true) : invariant (set_active v s) = true := by
  obtain ⟨inp, act, aid, pend, hd, nid, ev⟩ := s
  by_cases h1 : v = 1
  · subst h1
    rcases hd with _ | h
    · rcases pend with _ | ⟨p, ps⟩
      · rfl
      · simp [invariant] at hinv
    · rcases pend with _ | ⟨⟨h', r⟩, ps⟩
      · simp [invariant] at hinv
      · rcases ps with _ | ⟨q, qs⟩
        · have hh : h' = h ∧ h < nid := by simpa [invariant] using hinv
          obtain ⟨hh1, _⟩ := hh
          subst hh1
          have e : set_active 1 ⟨inp, act, aid, [(h', r)], some h', nid, ev⟩ =
              ⟨inp, 1, aid, [], none, nid, ev ++ [Ev.power true]⟩ := by
            simp [set_active]
          rw [e]
          rfl
        · simp [invariant] at hinv
  · by_cases h0 : v = 0
    · subst h0
      rcases hd with _ | h
      · rcases pend with _ | ⟨p, ps⟩
        · have e : set_active 0 ⟨inp, act, aid, [], none, nid, ev⟩ =
              ⟨inp, 0, aid, [(nid, 2)], some nid, nid + 1, ev ++ [Ev.power false]⟩ := by
            simp [set_active]
          rw [e]
          simp [invariant]
        · simp [invariant] at hinv
      · rcases pend with _ | ⟨⟨h', r⟩, ps⟩
        · simp [invariant] at hinv
        · rcases ps with _ | ⟨q, qs⟩
          · have hh : h' = h ∧ h < nid := by simpa [invariant] using hinv
            obtain ⟨hh1, _⟩ := hh
            subst hh1
            have e : set_active 0 ⟨inp, act, aid, [(h', r)], some h', nid, ev⟩ =
                ⟨inp, 0, aid, [(nid, 2)], some nid, nid + 1, ev ++ [Ev.power false]⟩ := by
              simp [set_active]
            rw [e]
            simp [invariant]
          · simp [invariant] at hinv
    · have e : set_active v ⟨inp, act, aid, pend, hd, nid, ev⟩ =
          ⟨inp, v, aid, pend, hd, nid, ev ++ [Ev.power (v == 1)]⟩ := by
        simp [set_active, h1, h0]
      rw [e]
      exact hinv

theorem invariant_tick (s : TVState) (hinv : invariant s = true) :
    invariant (tick s) = true := by
  obtain ⟨inp, act, aid, pend, hd, nid, ev⟩ := s
  rcases hd with _ | h
  · rcases pend with _ | ⟨p, ps⟩
    · rw [tick_pending_nil _ rfl]
      exact hinv
    · simp [invariant] at hinv
  · rcases pend with _ | ⟨⟨h', r⟩, ps⟩
    · simp [invariant] at hinv
    · rcases ps with _ | ⟨q, qs⟩
      · have hh : h' = h ∧ h < nid := by simpa [invariant] using hinv
        obtain ⟨hh1, hh2⟩ := hh
        subst hh1
        by_cases hr : r ≤ 1
        · have e : tick ⟨inp, act, aid, [(h', r)], some h', nid, ev⟩ =
              ⟨inp, 1, aid, [], none, nid, ev ++ [Ev.power true]⟩ := by
            simp [tick, restore_power, hr]
          rw [e]
          rfl
        · have e : tick ⟨inp, act, aid, [(h', r)], some h', nid, ev⟩ =
              ⟨inp, act, aid, [(h', r - 1)], some h', nid, ev⟩ := by
            simp [tick, hr]
          rw [e]
          simpa [invariant] using hh2
      · simp [invariant] at hinv

theorem invariant_set_active_identifier (s : TVState) (reg : VDF) (v : Nat)
    (hinv : invariant s = true) :
    invariant (set_active_identifier v s reg).1 = true := by
  obtain ⟨inp, act, aid, pend, hd, nid, ev⟩ := s
  exact hinv

theorem reachable_invariant (s : TVState) (h : Reachable s) :
    invariant s = true := by
  induction h with
  | init items ini => exact invariant_initTV items ini
  | power s v _ ih => exact invariant_set_active s v ih
  | input s reg v _ ih => exact invariant_set_active_identifier s reg v ih
  | time s _ ih => exact invariant_tick s ih

theorem invariant_pending_length (s : TVState) (h : invariant s = true) :
    s.pending.length ≤ 1 := by
  obtain ⟨inp, act, aid, pend, hd, nid, ev⟩ := s
  rcases hd with _ | hh
  · rcases pend with _ | ⟨p, ps⟩
    · simp
    · simp [invariant] at h
  · rcases pend with _ | ⟨p, ps⟩
    · simp
    · rcases ps with _ | ⟨q, qs⟩
      · simp
      · obtain ⟨ph, pr⟩ := p
        simp [invariant] at h

/-- Embeds the cancellation claim: turning power On while a restore timer
is pending cancels and clears it (no outstanding timer remains, so no
amount of elapsed time produces a second power-changed(On) callback), and
in every reachable state at most one restore timer is outstanding. -/
theorem set_active_on_cancels :
    (∀ s, invariant s = true → s.handle.isSome = true →
      (set_active 1 s).handle = none ∧
      (set_active 1 s).pending = [] ∧
      (set_active 1 s).events = s.events ++ [Ev.power true] ∧
      ∀ n, (advance n (set_active 1 s)).events = s.events ++ [Ev.power true]) ∧
    (∀ s, Reachable s → s.pending.length ≤ 1) := by
  constructor
  · intro s hinv hsome
    obtain ⟨inp, act, aid, pend, hd, nid, ev⟩ := s
    rcases hd with _ | h
    · simp at hsome
    · rcases pend with _ | ⟨⟨h', r⟩, ps⟩
      · simp [invariant] at hinv
      · rcases ps with _ | ⟨q, qs⟩
        · have hh : h' = h ∧ h < nid := by simpa [invariant] using hinv
          obtain ⟨hh1, _⟩ := hh
          subst hh1
          have e : set_active 1 ⟨inp, act, aid, [(h', r)], some h', nid, ev⟩ =
              ⟨inp, 1, aid, [], none, nid, ev ++ [Ev.power true]⟩ := by
            simp [set_active]
          rw [e]
          refine ⟨rfl, rfl, rfl, ?_⟩
          intro n
          rw [advance_pending_nil n _ rfl]
        · simp [invariant] at hinv
  · intro s hr
    exact invariant_pending_length s (reachable_invariant s hr)

/-- A state with one pending restore timer, as a concrete witness input. -/
def tvPendingRestore : TVState :=
  { inputs := []
    is_active := 0
    active_identifier := 0
    pending := [(0, 2)]
    handle := some 0
    nextId := 1
    events := [] }

theorem set_active_on_cancels_witness :
    invariant tvPendingRestore = true ∧
    (set_active 1 tvPendingRestore).handle = none ∧
    (set_active 1 tvPendingRestore).pending = [] ∧
    (advance 5 (set_active 1 tvPendingRestore)).events = [Ev.power true] ∧
    (initTV [] none).pending.length ≤ 1 := by
  have h := set_active_on_cancels
  have h1 := h.1 tvPendingRestore rfl rfl
  refine ⟨rfl, h1.1, h1.2.1, ?_, h.2 _ (Reachable.init [] none)⟩
  have h5 := h1.2.2.2 5
  simpa using h5

theorem dictGet_default (pairs : List (Nat × String)) (v : Nat) (dflt : String)
    (h : ∀ e ∈ pairs, e.1 ≠ v) : dictGet pairs v dflt = dflt := by
  have hn : pairs.reverse.find? (fun e => e.1 == v) = none :=
    List.find?_eq_none.mpr (fun e he => by
      simpa using h e (List.mem_reverse.mp he))
  unfold dictGet
  rw [hn]

/-- Embeds the unknown-identifier claim: an identifier matching no built
input is still accepted — the active identifier takes the new value (the
embedding is a total function, modelling that no exception is raised) and
the input-changed callback fires with the defensive label "Unknown" and
slug "-". -/
theorem unknown_identifier_accepted (s : TVState) (reg : VDF) (v : Nat)
    (hv : ∀ t ∈ s.inputs, t.1 ≠ v) :
    ((set_active_identifier v s reg).1).active_identifier = v ∧
    ((set_active_identifier v s reg).1).events =
      s.events ++ [Ev.input v "Unknown" "-"] := by
  have hlab : dictGet (s.inputs.map (fun t => (t.1, t.2.1))) v "Unknown" =
      "Unknown" := by
    refine dictGet_default _ _ _ ?_
    intro e he
    rcases List.mem_map.mp he with ⟨t, ht, rfl⟩
    exact hv t ht
  have hslug : dictGet (s.inputs.map (fun t => (t.1, t.2.2))) v "-" = "-" := by
    refine dictGet_default _ _ _ ?_
    intro e he
    rcases List.mem_map.mp he with ⟨t, ht, rfl⟩
    exact hv t ht
  refine ⟨rfl, ?_⟩
  show s.events ++
      [Ev.input v (dictGet (s.inputs.map (fun t => (t.1, t.2.1))) v "Unknown")
        (dictGet (s.inputs.map (fun t => (t.1, t.2.2))) v "-")] = _
  rw [hlab, hslug]

theorem unknown_identifier_accepted_witness :
    ((set_active_identifier 7 tvIdle (VDF.obj [])).1).active_identifier = 7 ∧
    ((set_active_identifier 7 tvIdle (VDF.obj [])).1).events =
      [Ev.input 7 "Unknown" "-"] := by
  have h := unknown_identifier_accepted tvIdle (VDF.obj []) 7
    (by intro t ht; simp [tvIdle] at ht)
  exact ⟨h.1, by simpa using h.2⟩

/-- Embeds the swallowed-write-failure claim: when persisting the selected
account fails, the handler swallows the failure (the embedding is total, so
nothing propagates to the caller of the setter), the in-memory active
identifier keeps the new value, and the registry tree is unchanged — the
protocol-visible selection and the persisted selection diverge. -/
theorem write_failure_swallowed (s : TVState) (reg : VDF) (v : Nat)
    (hfail : set_account
        (dictGet (s.inputs.map (fun t => (t.1, t.2.2))) v "-") reg = none) :
    ((set_active_identifier v s reg).1).active_identifier = v ∧
    (set_active_identifier v s reg).2 = reg := by
  refine ⟨rfl, ?_⟩
  show on_input_changed
      (dictGet (s.inputs.map (fun t => (t.1, t.2.2))) v "-") reg = reg
  unfold on_input_changed
  rw [hfail]

theorem write_failure_swallowed_witness :
    set_account "-" (VDF.obj []) = none ∧
    ((set_active_identifier 3 tvIdle (VDF.obj [])).1).active_identifier = 3 ∧
    (set_active_identifier 3 tvIdle (VDF.obj [])).2 = VDF.obj [] := by
  have h := write_failure_swallowed tvIdle (VDF.obj []) 3 rfl
  exact ⟨rfl, h.1, h.2⟩

/-- Embeds the construction-time initial state claim: power starts Off; the
active identifier is the input whose slug matches the currently persisted
account when one matches, else the first input's identifier, else 0 when
there are no inputs. -/
theorem tv_initial_state (items : List (Nat × String × String)) (reg : VDF) :
    (initTV items (initial_identifier_of items reg)).is_active = 0 ∧
    (∀ c t, get_account reg = some (VDF.str c) →
      items.find? (fun e => e.2.2 == c) = some t →
      (initTV items (initial_identifier_of items reg)).active_identifier = t.1) ∧
    (∀ x rest, items = x :: rest → initial_identifier_of items reg = none →
      (initTV items (initial_identifier_of items reg)).active_identifier = x.1) ∧
    (items = [] →
      (initTV items (initial_identifier_of items reg)).active_identifier = 0) := by
  refine ⟨rfl, ?_, ?_, ?_⟩
  · intro c t hg hf
    have hi : initial_identifier_of items reg = some t.1 := by
      unfold initial_identifier_of
      rw [hg]
      show (match items.find? (fun t => t.2.2 == c) with
            | some t => some t.1
            | none => none) = some t.1
      rw [hf]
    rw [hi]
    rfl
  · intro x rest hx hnone
    rw [hnone]
    subst hx
    rfl
  · intro h0
    subst h0
    have hi : initial_identifier_of [] reg = none := by
      unfold initial_identifier_of
      rcases hg : get_account reg with _ | u
      · rfl
      · rcases u with c | es
        · rfl
        · rfl
    rw [hi]
    rfl

/-- The inputs of the spec's end-to-end example. -/
def specItems : List (Nat × String × String) :=
  [(1, "Bob", "bob99"), (2, "carol_w", "carol_w")]

theorem tv_initial_state_witness :
    (initTV specItems (initial_identifier_of specItems wfReg)).is_active = 0 ∧
    (initTV specItems (initial_identifier_of specItems wfReg)).active_identifier
      = 1 := by
  have h := tv_initial_state specItems wfReg
  exact ⟨h.1, h.2.1 "bob99" (1, "Bob", "bob99") rfl rfl⟩

end SteamSwitcher
